import Mathlib

/-!
Verification of the composable data-validation engine of the repository
(week2/Task8).  The repository ships two implementations of the engine:

* the modular one: `src/week2/Task8/src/validators/BaseValidator.ts`
  (unnamed part_008), `ObjectValidator.ts` and `NumberValidator.ts`
  (unnamed part_009), plus the named `StringValidator.ts`,
  `BooleanValidator.ts`, `DateValidator.ts`, `ArrayValidator.ts` and the
  `Schema` factory in `src/index.ts` (unnamed part_011);
* the monolithic one: `src/schema.ts` (first file of unnamed part_010),
  exercised by the test-suite under `week2/Task8/tests`.

The embedding below follows the modular implementation (the one every
claim cites), translated construct by construct; the monolithic
`DateValidator` of `schema.ts` is embedded separately (namespace `SDate`)
because its `min`/`max` perform a construction-time range check that the
modular refactor does not.

Modelling conventions:
* JavaScript runtime values are the inductive `Value`; numbers are
  modelled by `JsNum` (rationals plus the three non-finite values), a
  `Date` by its timestamp `Option Int` (`none` is an invalid date, i.e. a
  NaN time value).
* `new Date(string)` parsing and `RegExp.test` are JavaScript built-ins;
  they are abstracted as an explicit `parse : String → Option Int`
  parameter and as a `String → Bool` field of the pattern rule.
  `Date.toISOString` is abstracted to printing the timestamp.
* `optional()` patches the `validate` method of the returned clone; a
  later configuration call clones through the constructor, which copies
  `rules`, `isOptional` and `baseErrorMessage` but not the patched
  method.  The patch is the `icp` flag, reset to `false` by `clone`.
* object keys in JavaScript records are unique, so writing
  `record[key] = v` is modelled by appending to an association list.
-/

namespace Task8

/-- JavaScript numbers as far as the validators inspect them: the three
non-finite values and finite values modelled as rationals. -/
inductive JsNum : Type where
  | nan : JsNum
  | inf : JsNum
  | negInf : JsNum
  | finite (q : ℚ) : JsNum
deriving DecidableEq

/-- JavaScript runtime values handed to `validate`. -/
inductive Value : Type where
  | undefV : Value
  | null : Value
  | bool (b : Bool) : Value
  | num (n : JsNum) : Value
  | str (s : String) : Value
  | date (t : Option Int) : Value
  | arr (elems : List Value) : Value
  | obj (fields : List (String × Value)) : Value

/-- Error payloads: either a message string or a JavaScript object
(association list), mirroring the `string | Record<string, any>` error
type of `ValidationResult`. -/
inductive JsErr : Type where
  | str (s : String) : JsErr
  | obj (entries : List (String × JsErr)) : JsErr

/-- The `ValidationResult` contract: `success: true` carries `data`,
`success: false` carries `error`.  A success whose `data` is the absent
marker is `ok Value.undefV`. -/
inductive VRes : Type where
  | ok (data : Value) : VRes
  | err (e : JsErr) : VRes

/-- Whether a `ValidationResult` reports success. -/
def VRes.isOk : VRes → Bool
  | .ok _ => true
  | .err _ => false

/-- The keys of an error object (empty for a message string). -/
def JsErr.keys : JsErr → List String
  | .str _ => []
  | .obj entries => entries.map Prod.fst

/-- Value is the absent marker (`null` or `undefined`). -/
def Value.isAbsent : Value → Bool
  | .undefV => true
  | .null => true
  | _ => false

/-- Value is exactly `undefined` (the check `result.data !== undefined`
of `ObjectValidator.validate`). -/
def Value.isUndefV : Value → Bool
  | .undefV => true
  | _ => false

/-- JavaScript comparison of two time values: any comparison involving a
NaN timestamp is false. -/
def jsLtTime : Option Int → Option Int → Bool
  | some a, some b => a < b
  | _, _ => false

/-- Stand-in for `Date.toISOString` inside default messages: the
timestamp is printed directly (formatting is a JS built-in and none of
the claims depends on its exact text). -/
def isoOf : Option Int → String
  | some t => toString t
  | none => "Invalid Date"

/-- Rules attachable to a `StringValidator` (`minLength`, `maxLength`,
`pattern`); `test` abstracts `RegExp.test`. -/
inductive StrRule : Type where
  | minLength (n : Int) (msg : Option String) : StrRule
  | maxLength (n : Int) (msg : Option String) : StrRule
  | pat (test : String → Bool) (msg : Option String) : StrRule

/-- Rules attachable to a `NumberValidator` (`min`, `max`). -/
inductive NumRule : Type where
  | nmin (q : ℚ) (msg : Option String) : NumRule
  | nmax (q : ℚ) (msg : Option String) : NumRule
deriving DecidableEq

/-- Rules attachable to a `DateValidator` (`min`, `max`); the bound is a
`Date`, hence possibly invalid. -/
inductive DateRule : Type where
  | dmin (d : Option Int) (msg : Option String) : DateRule
  | dmax (d : Option Int) (msg : Option String) : DateRule
deriving DecidableEq

/-- Rules attachable to an `ArrayValidator` (`minLength`, `maxLength`),
evaluated against the array length. -/
inductive ArrRule : Type where
  | minLength (n : Int) (msg : Option String) : ArrRule
  | maxLength (n : Int) (msg : Option String) : ArrRule
deriving DecidableEq

/-- One rule of `StringValidator` applied to the type-checked string:
`none` is success, `some e` the failure message, exactly as the closures
built by `minLength`, `maxLength` and `pattern` return it. -/
def evalStrRule (r : StrRule) (s : String) : Option String :=
  match r with
  | .minLength n msg =>
      if (s.length : Int) < n then
        some (msg.getD ("String must be at least " ++ toString n ++ " characters long"))
      else none
  | .maxLength n msg =>
      if (s.length : Int) > n then
        some (msg.getD ("String must be at most " ++ toString n ++ " characters long"))
      else none
  | .pat test msg =>
      if !(test s) then
        some (msg.getD "String does not match required pattern")
      else none

/-- One rule of `NumberValidator` applied to the type-checked finite
number. -/
def evalNumRule (r : NumRule) (v : ℚ) : Option String :=
  match r with
  | .nmin q msg =>
      if v < q then some (msg.getD ("Number must be at least " ++ toString q)) else none
  | .nmax q msg =>
      if v > q then some (msg.getD ("Number must be at most " ++ toString q)) else none

/-- One rule of the modular `DateValidator` applied to the type-checked
valid date (timestamp `t`). -/
def evalDateRule (r : DateRule) (t : Int) : Option String :=
  match r with
  | .dmin d msg =>
      if jsLtTime (some t) d then
        some (msg.getD ("Date must be on or after " ++ isoOf d))
      else none
  | .dmax d msg =>
      if jsLtTime d (some t) then
        some (msg.getD ("Date must be on or before " ++ isoOf d))
      else none

/-- One rule of `ArrayValidator` applied to the length of the
type-checked array. -/
def evalArrRule (r : ArrRule) (len : Nat) : Option String :=
  match r with
  | .minLength n msg =>
      if (len : Int) < n then
        some (msg.getD ("Array must contain at least " ++ toString n ++ " items"))
      else none
  | .maxLength n msg =>
      if (len : Int) > n then
        some (msg.getD ("Array must contain at most " ++ toString n ++ " items"))
      else none

/-- The rule loop of `BaseValidator.validate`: rules run in attachment
order and the first failing rule's error is returned. -/
def runRules {ρ α : Type} (f : ρ → α → Option String) : List ρ → α → Option String
  | [], _ => none
  | r :: rs, a =>
      match f r a with
      | some e => some e
      | none => runRules f rs a

mutual
/-- The modular validator tree.  Each constructor carries the state of a
`BaseValidator` subclass instance: its rule list (where the class offers
rule builders), the `isOptional` flag, the `baseErrorMessage`, and `icp`,
true exactly when the instance's `validate` method is the absent-input
interception installed by `optional()`. -/
inductive MV : Type where
  | vstr (rules : List StrRule) (opt : Bool) (baseMsg : Option String) (icp : Bool) : MV
  | vnum (rules : List NumRule) (opt : Bool) (baseMsg : Option String) (icp : Bool) : MV
  | vbool (opt : Bool) (baseMsg : Option String) (icp : Bool) : MV
  | vdate (rules : List DateRule) (opt : Bool) (baseMsg : Option String) (icp : Bool) : MV
  | varr (item : MV) (rules : List ArrRule) (opt : Bool) (baseMsg : Option String)
      (icp : Bool) : MV
  | vobj (schema : SchemaMap) (opt : Bool) (baseMsg : Option String) (icp : Bool) : MV

/-- The `Record<string, Validator<any>>` configuration of an
`ObjectValidator`, in `for..in` iteration order. -/
inductive SchemaMap : Type where
  | nil : SchemaMap
  | cons (key : String) (v : MV) (rest : SchemaMap) : SchemaMap
end

namespace MV

/-- Whether the instance's `validate` method is the patched one
installed by `optional()`. -/
def icpOf : MV → Bool
  | .vstr _ _ _ i => i
  | .vnum _ _ _ i => i
  | .vbool _ _ i => i
  | .vdate _ _ _ i => i
  | .varr _ _ _ _ i => i
  | .vobj _ _ _ i => i

/-- The stored `baseErrorMessage`. -/
def baseMsgOf : MV → Option String
  | .vstr _ _ m _ => m
  | .vnum _ _ m _ => m
  | .vbool _ m _ => m
  | .vdate _ _ m _ => m
  | .varr _ _ _ m _ => m
  | .vobj _ _ m _ => m

/-- The stored `isOptional` flag. -/
def optOf : MV → Bool
  | .vstr _ o _ _ => o
  | .vnum _ o _ _ => o
  | .vbool o _ _ => o
  | .vdate _ o _ _ => o
  | .varr _ _ o _ _ => o
  | .vobj _ o _ _ => o

end MV

/-- Whether a value passes the number type check (`typeof value ===
'number' && Number.isFinite(value)`). -/
def isFiniteNum : Value → Bool
  | .num (.finite _) => true
  | _ => false

/-- Lookup `fields[k]` on a JavaScript object: the value stored under
`k`, `undefined` when the key is missing. -/
def lookupField : List (String × Value) → String → Value
  | [], _ => .undefV
  | (k', v) :: rest, k => if k' = k then v else lookupField rest k

/-- JavaScript member access `objectValue[key]` as `ObjectValidator`
performs it: association-list lookup on objects, `undefined` on every
other value (notably on a `Date` that slipped through the object type
check). -/
def getField (x : Value) (k : String) : Value :=
  match x with
  | .obj fields => lookupField fields k
  | _ => .undefV

/-- The object type check of `ObjectValidator.validateType`:
`typeof value === 'object'` (true for `null`, arrays, dates and plain
objects), excluding `null` and arrays.  Dates pass it. -/
def jsIsObjectLike : Value → Bool
  | .obj _ => true
  | .date _ => true
  | _ => false

section WithParse

variable (parse : String → Option Int)

/-- The kind-specific `validateType` methods of the six validator
classes, translated clause by clause from the source.  `parse` abstracts
`new Date(string)`. -/
def validateType (v : MV) (x : Value) : VRes :=
  match v with
  | .vstr _ _ m _ =>
      match x with
      | .str s => .ok (.str s)
      | _ => .err (.str (m.getD "Value must be a string"))
  | .vnum _ _ m _ =>
      match x with
      | .num (.finite q) => .ok (.num (.finite q))
      | _ => .err (.str (m.getD "Value must be a valid number"))
  | .vbool _ m _ =>
      match x with
      | .bool b => .ok (.bool b)
      | _ => .err (.str (m.getD "Value must be a boolean"))
  | .vdate _ _ m _ =>
      match x with
      | .date (some t) => .ok (.date (some t))
      | .str s =>
          match parse s with
          | some t => .ok (.date (some t))
          | none => .err (.str (m.getD "Value must be a valid Date object or an ISO date string"))
      | _ => .err (.str (m.getD "Value must be a valid Date object or an ISO date string"))
  | .varr _ _ _ m _ =>
      match x with
      | .arr xs => .ok (.arr xs)
      | _ => .err (.str (m.getD "Value must be an array"))
  | .vobj _ _ m _ =>
      if jsIsObjectLike x then .ok x
      else .err (.str (m.getD "Value must be an object"))

end WithParse

/-- The data pushed by `validatedArray.push(itemResult.data!)`: the
payload of a success. -/
def VRes.okData : VRes → Option Value
  | .ok d => some d
  | .err _ => none

/-- The error side of the element loop of `ArrayValidator.validate`:
each failing element's error is recorded under the element's index
rendered as a string key (`errors[i] = itemResult.error`). -/
def collectIdxErrors : List VRes → Nat → List (String × JsErr)
  | [], _ => []
  | .ok _ :: rest, i => collectIdxErrors rest (i + 1)
  | .err e :: rest, i => (toString i, e) :: collectIdxErrors rest (i + 1)

section WithParse2

variable (parse : String → Option Int)

mutual
/-- The `validate` entry point callable on an instance.  The leading
absent test is the method patch installed by `optional()` (`icp`); with
`icp` false it is the prototype method: `BaseValidator.validate` (type
check, then the rule loop) for the four leaf kinds, and the overriding
`validate` of `ArrayValidator` / `ObjectValidator`, which first run the
base phase via `super.validate` and then validate every child.  The
array element loop (one pass pushing successes and indexing failures) is
rendered as a `map` of the child validator over the elements followed by
the two collectors `VRes.okData` and `collectIdxErrors`. -/
def validate (v : MV) (x : Value) : VRes :=
  if v.icpOf && x.isAbsent then .ok .undefV
  else
    match v with
    | .vstr rules _ m _ =>
        (match x with
         | .str s =>
             (match runRules evalStrRule rules s with
              | some e => .err (.str e)
              | none => .ok (.str s))
         | _ => .err (.str (m.getD "Value must be a string")))
    | .vnum rules _ m _ =>
        (match x with
         | .num (.finite q) =>
             (match runRules evalNumRule rules q with
              | some e => .err (.str e)
              | none => .ok (.num (.finite q)))
         | _ => .err (.str (m.getD "Value must be a valid number")))
    | .vbool _ m _ =>
        (match x with
         | .bool b => .ok (.bool b)
         | _ => .err (.str (m.getD "Value must be a boolean")))
    | .vdate rules _ m _ =>
        (match x with
         | .date (some t) =>
             (match runRules evalDateRule rules t with
              | some e => .err (.str e)
              | none => .ok (.date (some t)))
         | .str s =>
             (match parse s with
              | some t =>
                  (match runRules evalDateRule rules t with
                   | some e => .err (.str e)
                   | none => .ok (.date (some t)))
              | none => .err (.str (m.getD "Value must be a valid Date object or an ISO date string")))
         | _ => .err (.str (m.getD "Value must be a valid Date object or an ISO date string")))
    | .varr item rules _ m _ =>
        (match x with
         | .arr xs =>
             (match runRules evalArrRule rules xs.length with
              | some e => .err (.str e)
              | none =>
                  let results := xs.map (fun el => validate item el)
                  let errs := collectIdxErrors results 0
                  if errs.isEmpty then .ok (.arr (results.filterMap VRes.okData))
                  else .err (.obj [("message", .str "Array contains invalid items"),
                                   ("errors", .obj errs)]))
         | _ => .err (.str (m.getD "Value must be an array")))
    | .vobj schema _ m _ =>
        if jsIsObjectLike x then
          let r := validateFields schema x
          if r.2.isEmpty then .ok (.obj r.1)
          else .err (.obj [("message", .str "Object validation failed"),
                           ("errors", .obj r.2)])
        else .err (.str (m.getD "Value must be an object"))

/-- The field loop of `ObjectValidator.validate`: every schema key is
validated against `objectValue[key]`; successes other than the absent
marker are collected into the rebuilt record, failures into the error
mapping keyed by field name. -/
def validateFields (schema : SchemaMap) (x : Value) :
    List (String × Value) × List (String × JsErr) :=
  match schema with
  | .nil => ([], [])
  | .cons k vk rest =>
      match validate vk (getField x k) with
      | .ok d =>
          let r := validateFields rest x
          (if d.isUndefV then r.1 else (k, d) :: r.1, r.2)
      | .err e =>
          let r := validateFields rest x
          (r.1, (k, e) :: r.2)
end

/-- The prototype `validate` method of an instance, i.e. the method
before any `optional()` patch: the same per-kind dispatch as `validate`
without the leading absent test (children are still validated through
their own public `validate`). -/
def rawValidate (v : MV) (x : Value) : VRes :=
  match v with
  | .vstr rules _ m _ =>
      (match x with
       | .str s =>
           (match runRules evalStrRule rules s with
            | some e => .err (.str e)
            | none => .ok (.str s))
       | _ => .err (.str (m.getD "Value must be a string")))
  | .vnum rules _ m _ =>
      (match x with
       | .num (.finite q) =>
           (match runRules evalNumRule rules q with
            | some e => .err (.str e)
            | none => .ok (.num (.finite q)))
       | _ => .err (.str (m.getD "Value must be a valid number")))
  | .vbool _ m _ =>
      (match x with
       | .bool b => .ok (.bool b)
       | _ => .err (.str (m.getD "Value must be a boolean")))
  | .vdate rules _ m _ =>
      (match x with
       | .date (some t) =>
           (match runRules evalDateRule rules t with
            | some e => .err (.str e)
            | none => .ok (.date (some t)))
       | .str s =>
           (match parse s with
            | some t =>
                (match runRules evalDateRule rules t with
                 | some e => .err (.str e)
                 | none => .ok (.date (some t)))
            | none => .err (.str (m.getD "Value must be a valid Date object or an ISO date string")))
       | _ => .err (.str (m.getD "Value must be a valid Date object or an ISO date string")))
  | .varr item rules _ m _ =>
      (match x with
       | .arr xs =>
           (match runRules evalArrRule rules xs.length with
            | some e => .err (.str e)
            | none =>
                let results := xs.map (fun el => validate parse item el)
                let errs := collectIdxErrors results 0
                if errs.isEmpty then .ok (.arr (results.filterMap VRes.okData))
                else .err (.obj [("message", .str "Array contains invalid items"),
                                 ("errors", .obj errs)]))
       | _ => .err (.str (m.getD "Value must be an array")))
  | .vobj schema _ m _ =>
      if jsIsObjectLike x then
        let r := validateFields parse schema x
        if r.2.isEmpty then .ok (.obj r.1)
        else .err (.obj [("message", .str "Object validation failed"),
                         ("errors", .obj r.2)])
      else .err (.str (m.getD "Value must be an object"))

/-- An instance's callable `validate` is the absent-input patch on top
of the prototype method. -/
theorem validate_eq_raw (v : MV) (x : Value) :
    validate parse v x =
      if v.icpOf && x.isAbsent then .ok .undefV else rawValidate parse v x := by
  cases v <;> rfl

end WithParse2

/-- The `clone()` implementations: each subclass constructs a fresh
instance of itself from `this`, and the `BaseValidator` constructor
copies `rules`, `isOptional` and `baseErrorMessage` (the array item
validator and the object schema are carried by the subclass
constructors).  The fresh instance's `validate` is the prototype method,
so the patch installed by `optional()` is not carried over: `icp` resets
to `false`. -/
def clone : MV → MV
  | .vstr r o m _ => .vstr r o m false
  | .vnum r o m _ => .vnum r o m false
  | .vbool o m _ => .vbool o m false
  | .vdate r o m _ => .vdate r o m false
  | .varr it r o m _ => .varr it r o m false
  | .vobj s o m _ => .vobj s o m false

namespace MV

/-- `BaseValidator.optional()`: clone, set `isOptional`, and replace the
clone's `validate` method by the absent-input interception (`icp`). -/
def optional (v : MV) : MV :=
  match clone v with
  | .vstr r _ m _ => .vstr r true m true
  | .vnum r _ m _ => .vnum r true m true
  | .vbool _ m _ => .vbool true m true
  | .vdate r _ m _ => .vdate r true m true
  | .varr it r _ m _ => .varr it r true m true
  | .vobj s _ m _ => .vobj s true m true

/-- `BaseValidator.withMessage(message)`: clone and store the message
used by the base type check. -/
def withMessage (v : MV) (message : String) : MV :=
  match clone v with
  | .vstr r o _ _ => .vstr r o (some message) false
  | .vnum r o _ _ => .vnum r o (some message) false
  | .vbool o _ _ => .vbool o (some message) false
  | .vdate r o _ _ => .vdate r o (some message) false
  | .varr it r o _ _ => .varr it r o (some message) false
  | .vobj s o _ _ => .vobj s o (some message) false

/-- `StringValidator.minLength(length, message?)`: `addRule` clones and
pushes the rule onto the clone.  The non-string arms are unreachable
through the TypeScript API (the method exists only on `StringValidator`)
and leave the validator unchanged. -/
def strMinLength (v : MV) (n : Int) (msg : Option String) : MV :=
  match v with
  | .vstr r o m _ => .vstr (r ++ [.minLength n msg]) o m false
  | w => w

/-- `StringValidator.maxLength(length, message?)`. -/
def strMaxLength (v : MV) (n : Int) (msg : Option String) : MV :=
  match v with
  | .vstr r o m _ => .vstr (r ++ [.maxLength n msg]) o m false
  | w => w

/-- `StringValidator.pattern(pattern, message?)`; `test` abstracts the
regular expression's `test` method. -/
def strPat (v : MV) (test : String → Bool) (msg : Option String) : MV :=
  match v with
  | .vstr r o m _ => .vstr (r ++ [.pat test msg]) o m false
  | w => w

/-- `NumberValidator.min(value, message?)`. -/
def numMin (v : MV) (q : ℚ) (msg : Option String) : MV :=
  match v with
  | .vnum r o m _ => .vnum (r ++ [.nmin q msg]) o m false
  | w => w

/-- `NumberValidator.max(value, message?)`. -/
def numMax (v : MV) (q : ℚ) (msg : Option String) : MV :=
  match v with
  | .vnum r o m _ => .vnum (r ++ [.nmax q msg]) o m false
  | w => w

/-- The modular `DateValidator.min(date, message?)` of
`src/week2/Task8/src/validators/DateValidator.ts`: it only attaches a
validation-time rule — there is no construction-time range check in this
implementation. -/
def dateMin (v : MV) (d : Option Int) (msg : Option String) : MV :=
  match v with
  | .vdate r o m _ => .vdate (r ++ [.dmin d msg]) o m false
  | w => w

/-- The modular `DateValidator.max(date, message?)`; again only a
validation-time rule. -/
def dateMax (v : MV) (d : Option Int) (msg : Option String) : MV :=
  match v with
  | .vdate r o m _ => .vdate (r ++ [.dmax d msg]) o m false
  | w => w

/-- `ArrayValidator.minLength(length, message?)`. -/
def arrMinLength (v : MV) (n : Int) (msg : Option String) : MV :=
  match v with
  | .varr it r o m _ => .varr it (r ++ [.minLength n msg]) o m false
  | w => w

/-- `ArrayValidator.maxLength(length, message?)`. -/
def arrMaxLength (v : MV) (n : Int) (msg : Option String) : MV :=
  match v with
  | .varr it r o m _ => .varr it (r ++ [.maxLength n msg]) o m false
  | w => w

/-- The rule list of a string validator. -/
def strRulesOf : MV → List StrRule
  | .vstr r _ _ _ => r
  | _ => []

/-- The rule list of a number validator. -/
def numRulesOf : MV → List NumRule
  | .vnum r _ _ _ => r
  | _ => []

/-- The rule list of a modular date validator. -/
def dateRulesOf : MV → List DateRule
  | .vdate r _ _ _ => r
  | _ => []

end MV

/-- Whether a string rule is a `maxLength` rule. -/
def StrRule.isMaxLengthRule : StrRule → Bool
  | .maxLength _ _ => true
  | _ => false

/-!
The `Schema` factory of `src/index.ts`: one constructor per validator
kind, each returning a freshly constructed validator with no rules, no
custom message, not optional.
-/
namespace Schema

def string : MV := .vstr [] false none false

def number : MV := .vnum [] false none false

def boolean : MV := .vbool false none false

def date : MV := .vdate [] false none false

def array (item : MV) : MV := .varr item [] false none false

def object (schema : SchemaMap) : MV := .vobj schema false none false

end Schema

/-- The declared keys of an object schema, in `for..in` order. -/
def schemaKeys : SchemaMap → List String
  | .nil => []
  | .cons k _ rest => k :: schemaKeys rest

/-- The schema map as an association list. -/
def schemaToList : SchemaMap → List (String × MV)
  | .nil => []
  | .cons k v rest => (k, v) :: schemaToList rest

/-- Boolean membership in a list of keys. -/
def memStr (k : String) : List String → Bool
  | [] => false
  | k' :: rest => (k' = k) || memStr k rest

/-- Key list without duplicates, as a Boolean check. -/
def nodupStr : List String → Bool
  | [] => true
  | k :: rest => !(memStr k rest) && nodupStr rest

mutual
/-- Well-formedness of a validator tree as constructible through the
TypeScript API: every object schema is a `Record`, whose keys are
necessarily distinct. -/
def WFb : MV → Bool
  | .vstr _ _ _ _ => true
  | .vnum _ _ _ _ => true
  | .vbool _ _ _ => true
  | .vdate _ _ _ _ => true
  | .varr item _ _ _ _ => WFb item
  | .vobj schema _ _ _ => nodupStr (schemaKeys schema) && WFbs schema

/-- Well-formedness of every validator in a schema map. -/
def WFbs : SchemaMap → Bool
  | .nil => true
  | .cons _ v rest => WFb v && WFbs rest
end

/-!
The monolithic `src/schema.ts` (first file of unnamed part_010) keeps
`minDateVal` / `maxDateVal` on its `DateValidator` and performs a range
check inside `min` and `max`: setting a bound that inverts an
already-present opposite bound throws `new Error('Min date cannot be
after max date')` at configuration time.  Throwing is modelled by
`Except`.
-/
namespace SDate

/-- The state of a `schema.ts` `DateValidator` instance: its attached
rules plus the remembered bounds (each a possibly-invalid date and the
optional custom message). -/
structure SDateValidator : Type where
  rules : List DateRule
  minDateVal : Option (Option Int × Option String)
  maxDateVal : Option (Option Int × Option String)
  isOptional : Bool
  baseErrorMessage : Option String

/-- The freshly constructed `Schema.date()` of `schema.ts`. -/
def empty : SDateValidator :=
  { rules := [], minDateVal := none, maxDateVal := none,
    isOptional := false, baseErrorMessage := none }

/-- `schema.ts` `DateValidator.min(date, message?)`: clone, record the
bound, throw when a recorded max bound lies before it, otherwise attach
the rule. -/
def min (v : SDateValidator) (d : Option Int) (msg : Option String) :
    Except String SDateValidator :=
  let nv := { v with minDateVal := some (d, msg) }
  if (match nv.maxDateVal with
      | some md => jsLtTime md.1 d
      | none => false) then
    Except.error "Min date cannot be after max date"
  else
    Except.ok { nv with rules := nv.rules ++ [.dmin d msg] }

/-- `schema.ts` `DateValidator.max(date, message?)`: clone, record the
bound, throw when a recorded min bound lies after it, otherwise attach
the rule. -/
def max (v : SDateValidator) (d : Option Int) (msg : Option String) :
    Except String SDateValidator :=
  let nv := { v with maxDateVal := some (d, msg) }
  if (match nv.minDateVal with
      | some md => jsLtTime d md.1
      | none => false) then
    Except.error "Min date cannot be after max date"
  else
    Except.ok { nv with rules := nv.rules ++ [.dmax d msg] }

end SDate

/-!
Specification-level reformulations of the aggregation loops, used to
state what the error mappings contain.
-/

/-- The indices (as string keys, in ascending order) of the failing
results of an element pass. -/
def failIdx : List VRes → Nat → List String
  | [], _ => []
  | .ok _ :: rest, i => failIdx rest (i + 1)
  | .err e :: rest, i => let _ := e; toString i :: failIdx rest (i + 1)

/-- Induction on a schema map alone (the mutual recursor of
`MV`/`SchemaMap` needs two motives; this packages the list-like one). -/
theorem SchemaMap.inductionOn (P : SchemaMap → Prop) (h1 : P .nil)
    (h2 : ∀ k v rest, P rest → P (.cons k v rest)) : ∀ s, P s
  | .nil => h1
  | .cons k v rest => h2 k v rest (SchemaMap.inductionOn P h1 h2 rest)

section Lemmas

variable (parse : String → Option Int)

theorem runRules_all_none {ρ α : Type} (f : ρ → α → Option String) (rs : List ρ) (a : α)
    (h : ∀ r ∈ rs, f r a = none) : runRules f rs a = none := by
  induction rs with
  | nil => rfl
  | cons r rest ih =>
      simp only [runRules, h r (by simp)]
      exact ih (fun r hr => h r (by simp [hr]))

theorem runRules_first_fail {ρ α : Type} (f : ρ → α → Option String) (pre : List ρ) (r : ρ)
    (post : List ρ) (a : α) (e : String) (hpre : ∀ p ∈ pre, f p a = none)
    (hr : f r a = some e) : runRules f (pre ++ r :: post) a = some e := by
  induction pre with
  | nil => simp only [List.nil_append, runRules, hr]
  | cons p rest ih =>
      simp only [List.cons_append, runRules, hpre p (by simp)]
      exact ih (fun p hp => hpre p (by simp [hp]))

theorem collectIdxErrors_nil_iff (rs : List VRes) :
    ∀ i, (collectIdxErrors rs i = [] ↔ ∀ r ∈ rs, ∃ d, r = .ok d) := by
  induction rs with
  | nil => intro i; simp [collectIdxErrors]
  | cons r rest ih =>
      intro i
      cases r with
      | ok d => simp [collectIdxErrors, ih (i + 1)]
      | err e => simp [collectIdxErrors]

theorem collectIdxErrors_map_fst (rs : List VRes) :
    ∀ i, (collectIdxErrors rs i).map Prod.fst = failIdx rs i := by
  induction rs with
  | nil => intro i; rfl
  | cons r rest ih =>
      intro i
      cases r with
      | ok d => simp [collectIdxErrors, failIdx, ih (i + 1)]
      | err e => simp [collectIdxErrors, failIdx, ih (i + 1)]

theorem collectIdxErrors_mem (rs : List VRes) :
    ∀ i j e, rs[j]? = some (.err e) → (toString (i + j), e) ∈ collectIdxErrors rs i := by
  induction rs with
  | nil => intro i j e h; simp at h
  | cons r rest ih =>
      intro i j e h
      cases j with
      | zero =>
          simp only [List.getElem?_cons_zero, Option.some.injEq] at h
          subst h
          simp [collectIdxErrors]
      | succ j' =>
          simp only [List.getElem?_cons_succ] at h
          have := ih (i + 1) j' e h
          cases r with
          | ok d =>
              simpa [collectIdxErrors, Nat.add_assoc, Nat.add_comm 1 j'] using this
          | err e' =>
              simp only [collectIdxErrors, List.mem_cons]
              right
              simpa [Nat.add_assoc, Nat.add_comm 1 j'] using this

theorem filterMap_okData_all_ok (rs : List VRes) (h : ∀ r ∈ rs, ∃ d, r = .ok d) :
    (rs.filterMap VRes.okData).length = rs.length := by
  induction rs with
  | nil => rfl
  | cons r rest ih =>
      obtain ⟨d, rfl⟩ := h (r := r) (by simp)
      simp only [List.filterMap_cons, VRes.okData, List.length_cons]
      rw [ih (fun r hr => h r (by simp [hr]))]

theorem mem_filterMap_okData (rs : List VRes) (y : Value)
    (h : y ∈ rs.filterMap VRes.okData) : VRes.ok y ∈ rs := by
  induction rs with
  | nil => simp at h
  | cons r rest ih =>
      cases r with
      | ok d =>
          simp only [List.filterMap_cons, VRes.okData, List.mem_cons] at h
          rcases h with h | h
          · simp [h]
          · simp [ih h]
      | err e =>
          simp only [List.filterMap_cons, VRes.okData] at h
          simp [ih h]

theorem filterMap_okData_map_ok (out : List Value) :
    (out.map VRes.ok).filterMap VRes.okData = out := by
  induction out with
  | nil => rfl
  | cons d rest ih => simp [List.filterMap_cons, VRes.okData, ih]

/-- The success side of the object field pass, characterized as a
filter over the schema: exactly the schema keys whose validator
succeeded with a present (non-`undefined`) value appear, in schema
order, bound to the validated value. -/
theorem validateFields_fst_spec (s : SchemaMap) (x : Value) :
    (validateFields parse s x).1 =
      (schemaToList s).filterMap (fun p =>
        match validate parse p.2 (getField x p.1) with
        | .ok d => if d.isUndefV then none else some (p.1, d)
        | .err _ => none) := by
  induction s using SchemaMap.inductionOn with
  | h1 => rfl
  | h2 k vk rest ih =>
      simp only [validateFields, schemaToList, List.filterMap_cons]
      cases hv : validate parse vk (getField x k) with
      | ok d =>
          by_cases hu : d.isUndefV
          · simp [hv, hu, ih]
          · simp [hv, hu, ih]
      | err e => simp [hv, ih]

/-- The failure side of the object field pass, characterized as a
filter over the schema: exactly the schema keys whose validator failed
appear, in schema order, bound to that child's error value. -/
theorem validateFields_snd_spec (s : SchemaMap) (x : Value) :
    (validateFields parse s x).2 =
      (schemaToList s).filterMap (fun p =>
        match validate parse p.2 (getField x p.1) with
        | .ok _ => none
        | .err e => some (p.1, e)) := by
  induction s using SchemaMap.inductionOn with
  | h1 => rfl
  | h2 k vk rest ih =>
      simp only [validateFields, schemaToList, List.filterMap_cons]
      cases hv : validate parse vk (getField x k) with
      | ok d => simp [hv, ih]
      | err e => simp [hv, ih]

theorem validateFields_keys_sub (s : SchemaMap) (x : Value) :
    ∀ k, k ∈ (validateFields parse s x).1.map Prod.fst → k ∈ schemaKeys s := by
  induction s using SchemaMap.inductionOn with
  | h1 => intro k h; simp [validateFields] at h
  | h2 k' vk rest ih =>
      intro k h
      simp only [validateFields] at h
      cases hv : validate parse vk (getField x k') with
      | ok d =>
          rw [hv] at h
          by_cases hu : d.isUndefV
          · simp only [hu, if_pos] at h
            exact List.mem_cons_of_mem _ (ih k h)
          · simp only [hu, if_neg, Bool.false_eq_true, not_false_iff, List.map_cons,
              List.mem_cons] at h
            rcases h with h | h
            · simp [schemaKeys, h]
            · exact List.mem_cons_of_mem _ (ih k h)
      | err e =>
          rw [hv] at h
          exact List.mem_cons_of_mem _ (ih k h)

theorem lookupField_not_mem (l : List (String × Value)) (k : String)
    (h : k ∉ l.map Prod.fst) : lookupField l k = .undefV := by
  induction l with
  | nil => rfl
  | cons p rest ih =>
      obtain ⟨k', v⟩ := p
      simp only [List.map_cons, List.mem_cons] at h
      push_neg at h
      have hk : ¬ (k' = k) := fun hh => h.1 hh.symm
      simp only [lookupField, if_neg hk]
      exact ih h.2

theorem memStr_false_not_mem (k : String) (l : List String) (h : memStr k l = false) :
    k ∉ l := by
  induction l with
  | nil => simp
  | cons k' rest ih =>
      simp only [memStr, Bool.or_eq_false_iff, decide_eq_false_iff_not] at h
      simp only [List.mem_cons]
      push_neg
      exact ⟨fun hk => h.1 hk.symm, ih h.2⟩

theorem isUndefV_eq (d : Value) : d.isUndefV = true ↔ d = .undefV := by
  cases d <;> simp [Value.isUndefV]

theorem isEmpty_eq_nil {α : Type} (l : List α) : l.isEmpty = true ↔ l = [] := by
  cases l <;> simp

/-- A success produced by the prototype `validate` method always carries
a present value: every type check maps its input to a non-absent datum,
and the container overrides rebuild an array or an object. -/
theorem rawValidate_ok_not_absent (v : MV) (x : Value) (d : Value)
    (h : rawValidate parse v x = .ok d) : d.isAbsent = false := by
  cases v <;> simp only [rawValidate] at h <;> (repeat' split at h) <;>
    first
      | injection h with h1; subst h1; rfl
      | injection h

/-- Only the `optional()` patch can produce a success carrying the
absent marker. -/
theorem validate_ok_undef_icp (v : MV) (x : Value)
    (h : validate parse v x = .ok .undefV) : v.icpOf = true := by
  rw [validate_eq_raw] at h
  by_cases hc : (v.icpOf && x.isAbsent) = true
  · have h1 : v.icpOf = true ∧ x.isAbsent = true := by simpa using hc
    exact h1.1
  · rw [if_neg hc] at h
    have := rawValidate_ok_not_absent parse v x .undefV h
    simp [Value.isAbsent] at this

/-- A validator that accepted some input as absent also accepts
`undefined`. -/
theorem validate_undef_stable (v : MV) (x : Value)
    (h : validate parse v x = .ok .undefV) : validate parse v .undefV = .ok .undefV := by
  have hicp := validate_ok_undef_icp parse v x h
  rw [validate_eq_raw, hicp]
  rfl

/-- On a present input, the public `validate` is the prototype method. -/
theorem validate_present (v : MV) (x : Value) (hx : x.isAbsent = false) :
    validate parse v x = rawValidate parse v x := by
  rw [validate_eq_raw, hx, Bool.and_false]
  rfl

/-- Lift a round-trip property through the `optional()` patch: if
re-validating any output of the prototype method reproduces it, the same
holds for the public `validate`. -/
theorem wrapper_rt (v : MV)
    (hraw : ∀ x d, rawValidate parse v x = .ok d → validate parse v d = .ok d) :
    ∀ x d, validate parse v x = .ok d → validate parse v d = .ok d := by
  intro x d h
  rw [validate_eq_raw] at h
  by_cases hc : (v.icpOf && x.isAbsent) = true
  · rw [if_pos hc] at h
    injection h with h1
    subst h1
    have h1 : v.icpOf = true ∧ x.isAbsent = true := by simpa using hc
    rw [validate_eq_raw]
    simp [h1.1, Value.isAbsent]
  · rw [if_neg hc] at h
    exact hraw x d h

theorem map_congr_mem {α β : Type} (l : List α) (f g : α → β)
    (h : ∀ a ∈ l, f a = g a) : l.map f = l.map g := by
  induction l with
  | nil => rfl
  | cons a rest ih =>
      simp only [List.map_cons, h a (by simp)]
      rw [ih (fun a ha => h a (by simp [ha]))]

/-- Unfolding of the string validator on a string input. -/
theorem raw_vstr_str (rules : List StrRule) (o : Bool) (m : Option String) (i : Bool)
    (s : String) :
    rawValidate parse (.vstr rules o m i) (.str s) =
      (match runRules evalStrRule rules s with
       | some e => .err (.str e)
       | none => .ok (.str s)) :=
  rfl

/-- Unfolding of the number validator on a finite numeric input. -/
theorem raw_vnum_finite (rules : List NumRule) (o : Bool) (m : Option String) (i : Bool)
    (q : ℚ) :
    rawValidate parse (.vnum rules o m i) (.num (.finite q)) =
      (match runRules evalNumRule rules q with
       | some e => .err (.str e)
       | none => .ok (.num (.finite q))) :=
  rfl

/-- Unfolding of the date validator on a valid date input. -/
theorem raw_vdate_some (rules : List DateRule) (o : Bool) (m : Option String) (i : Bool)
    (tv : Int) :
    rawValidate parse (.vdate rules o m i) (.date (some tv)) =
      (match runRules evalDateRule rules tv with
       | some e => .err (.str e)
       | none => .ok (.date (some tv))) :=
  rfl

/-- Unfolding of the date validator on a string input. -/
theorem raw_vdate_str (rules : List DateRule) (o : Bool) (m : Option String) (i : Bool)
    (s : String) :
    rawValidate parse (.vdate rules o m i) (.str s) =
      (match parse s with
       | some tv =>
           (match runRules evalDateRule rules tv with
            | some e => .err (.str e)
            | none => .ok (.date (some tv)))
       | none => .err (.str (m.getD "Value must be a valid Date object or an ISO date string"))) :=
  rfl

/-- Unfolding of the array override on an array input (the two `let`
bindings of the source are expanded). -/
theorem raw_varr_arr (item : MV) (rules : List ArrRule) (o : Bool) (m : Option String)
    (i : Bool) (xs : List Value) :
    rawValidate parse (.varr item rules o m i) (.arr xs) =
      (match runRules evalArrRule rules xs.length with
       | some e => .err (.str e)
       | none =>
           if (collectIdxErrors (xs.map fun el => validate parse item el) 0).isEmpty
           then .ok (.arr ((xs.map fun el => validate parse item el).filterMap VRes.okData))
           else .err (.obj [("message", .str "Array contains invalid items"),
                            ("errors",
                             .obj (collectIdxErrors (xs.map fun el => validate parse item el) 0))])) :=
  rfl

/-- Unfolding of the object override. -/
theorem raw_vobj_eq (schema : SchemaMap) (o : Bool) (m : Option String) (i : Bool)
    (x : Value) :
    rawValidate parse (.vobj schema o m i) x =
      (if jsIsObjectLike x then
         if (validateFields parse schema x).2.isEmpty
         then .ok (.obj (validateFields parse schema x).1)
         else .err (.obj [("message", .str "Object validation failed"),
                          ("errors", .obj (validateFields parse schema x).2)])
       else .err (.str (m.getD "Value must be an object"))) :=
  rfl

mutual
/-- Re-validating any success of the prototype method reproduces it, for
well-formed validator trees. -/
theorem raw_rt : ∀ (v : MV), WFb v = true → ∀ (x d : Value),
    rawValidate parse v x = .ok d → validate parse v d = .ok d
  | .vstr rules o m i => by
      intro _ x d h
      cases x <;> try exact VRes.noConfusion h
      case str s =>
        rw [raw_vstr_str] at h
        cases hr : runRules evalStrRule rules s with
        | some e => rw [hr] at h; exact VRes.noConfusion h
        | none =>
            rw [hr] at h
            injection h with h1
            subst h1
            rw [validate_present parse (MV.vstr rules o m i) (.str s) rfl, raw_vstr_str, hr]
  | .vnum rules o m i => by
      intro _ x d h
      cases x <;> try exact VRes.noConfusion h
      case num n =>
        cases n <;> try exact VRes.noConfusion h
        case finite q =>
          rw [raw_vnum_finite] at h
          cases hr : runRules evalNumRule rules q with
          | some e => rw [hr] at h; exact VRes.noConfusion h
          | none =>
              rw [hr] at h
              injection h with h1
              subst h1
              rw [validate_present parse (MV.vnum rules o m i) (.num (.finite q)) rfl,
                raw_vnum_finite, hr]
  | .vbool o m i => by
      intro _ x d h
      cases x <;> try exact VRes.noConfusion h
      case bool b =>
        injection h with h1
        subst h1
        exact validate_present parse (MV.vbool o m i) (.bool b) rfl
  | .vdate rules o m i => by
      intro _ x d h
      cases x <;> try exact VRes.noConfusion h
      case date t =>
        cases t with
        | none => exact VRes.noConfusion h
        | some tv =>
            rw [raw_vdate_some] at h
            cases hr : runRules evalDateRule rules tv with
            | some e => rw [hr] at h; exact VRes.noConfusion h
            | none =>
                rw [hr] at h
                injection h with h1
                subst h1
                rw [validate_present parse (MV.vdate rules o m i) (.date (some tv)) rfl,
                  raw_vdate_some, hr]
      case str s =>
        rw [raw_vdate_str] at h
        cases hp : parse s with
        | none => rw [hp] at h; exact VRes.noConfusion h
        | some tv =>
            rw [hp] at h
            have h2 : (match runRules evalDateRule rules tv with
                       | some e => VRes.err (JsErr.str e)
                       | none => VRes.ok (Value.date (some tv))) = VRes.ok d := h
            cases hr : runRules evalDateRule rules tv with
            | some e => rw [hr] at h2; exact VRes.noConfusion h2
            | none =>
                rw [hr] at h2
                injection h2 with h1
                subst h1
                rw [validate_present parse (MV.vdate rules o m i) (.date (some tv)) rfl,
                  raw_vdate_some, hr]
  | .varr item rules o m i => by
      intro hwf x d h
      have hwf' : WFb item = true := by simpa [WFb] using hwf
      have childRT := wrapper_rt parse item (raw_rt item hwf')
      cases x <;> try exact VRes.noConfusion h
      case arr xs =>
        rw [raw_varr_arr] at h
        cases hr : runRules evalArrRule rules xs.length with
        | some e => rw [hr] at h; exact VRes.noConfusion h
        | none =>
            rw [hr] at h
            by_cases he :
                (collectIdxErrors (xs.map fun el => validate parse item el) 0).isEmpty = true
            · rw [if_pos he] at h
              injection h with h1
              subst h1
              have hall : collectIdxErrors (xs.map fun el => validate parse item el) 0 = [] :=
                (isEmpty_eq_nil _).mp he
              have hok : ∀ r ∈ (xs.map fun el => validate parse item el), ∃ dd, r = .ok dd :=
                (collectIdxErrors_nil_iff _ 0).mp hall
              rw [validate_present parse (MV.varr item rules o m i)
                  (.arr ((xs.map fun el => validate parse item el).filterMap VRes.okData)) rfl,
                raw_varr_arr]
              have hlen :
                  ((xs.map fun el => validate parse item el).filterMap VRes.okData).length =
                    xs.length := by
                rw [filterMap_okData_all_ok _ hok, List.length_map]
              rw [hlen, hr]
              have hmapok :
                  ((xs.map fun el => validate parse item el).filterMap VRes.okData).map
                      (fun el => validate parse item el) =
                    ((xs.map fun el => validate parse item el).filterMap VRes.okData).map
                      VRes.ok := by
                apply map_congr_mem
                intro y hy
                have hmem : VRes.ok y ∈ (xs.map fun el => validate parse item el) :=
                  mem_filterMap_okData _ _ hy
                obtain ⟨xx, _, hvxx⟩ := List.mem_map.mp hmem
                exact childRT xx y hvxx
              rw [hmapok]
              have hcol :
                  collectIdxErrors
                      (((xs.map fun el => validate parse item el).filterMap VRes.okData).map
                        VRes.ok) 0 = [] := by
                apply (collectIdxErrors_nil_iff _ 0).mpr
                intro r hrr
                obtain ⟨yy, _, rfl⟩ := List.mem_map.mp hrr
                exact ⟨yy, rfl⟩
              rw [hcol, filterMap_okData_map_ok]
              rfl
            · rw [if_neg he] at h
              exact VRes.noConfusion h
  | .vobj schema o m i => by
      intro hwf x d h
      have hparts : nodupStr (schemaKeys schema) = true ∧ WFbs schema = true := by
        simpa [WFb] using hwf
      rw [raw_vobj_eq] at h
      by_cases hobj : jsIsObjectLike x = true
      · rw [if_pos hobj] at h
        by_cases he : (validateFields parse schema x).2.isEmpty = true
        · rw [if_pos he] at h
          injection h with h1
          subst h1
          have hsnd : (validateFields parse schema x).2 = [] := (isEmpty_eq_nil _).mp he
          have hpair :
              validateFields parse schema x = ((validateFields parse schema x).1, []) := by
            rw [← hsnd]
          rw [validate_present parse (MV.vobj schema o m i)
              (.obj (validateFields parse schema x).1) rfl, raw_vobj_eq]
          have hrevalid :
              validateFields parse schema (.obj (validateFields parse schema x).1) =
                ((validateFields parse schema x).1, []) :=
            fields_rt schema hparts.1 hparts.2 x _ hpair
              (.obj (validateFields parse schema x).1) (fun k _ => rfl)
          rw [if_pos (by simp [jsIsObjectLike]), hrevalid]
          rfl
        · rw [if_neg he] at h
          exact VRes.noConfusion h
      · rw [if_neg hobj] at h
        exact VRes.noConfusion h

/-- Re-running the field pass on any input that looks up, on every
schema key, to the same values as the rebuilt output record reproduces
the output exactly (distinct schema keys assumed). -/
theorem fields_rt : ∀ (s : SchemaMap), nodupStr (schemaKeys s) = true → WFbs s = true →
    ∀ (x : Value) (out : List (String × Value)),
    validateFields parse s x = (out, []) →
    ∀ (y : Value), (∀ k, k ∈ schemaKeys s → getField y k = lookupField out k) →
    validateFields parse s y = (out, [])
  | .nil => by
      intro _ _ x out h y _
      simp only [validateFields] at h ⊢
      have hout : out = [] := by
        have := congrArg Prod.fst h
        simpa using this.symm
      rw [hout]
  | .cons k vk rest => by
      intro hnd hwfs x out h y hy
      have hnd' : memStr k (schemaKeys rest) = false ∧ nodupStr (schemaKeys rest) = true := by
        simpa [schemaKeys, nodupStr] using hnd
      have hwf' : WFb vk = true ∧ WFbs rest = true := by
        simpa [WFbs] using hwfs
      have childRT := wrapper_rt parse vk (raw_rt vk hwf'.1)
      simp only [validateFields] at h
      cases hv : validate parse vk (getField x k) with
      | err e =>
          rw [hv] at h
          have := congrArg Prod.snd h
          simp at this
      | ok d =>
          rw [hv] at h
          have hr2 : (validateFields parse rest x).2 = [] := by
            have := congrArg Prod.snd h
            simpa using this
          have hout : out =
              (if d.isUndefV = true then (validateFields parse rest x).1
               else (k, d) :: (validateFields parse rest x).1) := by
            have := congrArg Prod.fst h
            simpa using this.symm
          have hrest_pair :
              validateFields parse rest x = ((validateFields parse rest x).1, []) := by
            rw [← hr2]
          have hyk : getField y k = lookupField out k := hy k (by simp [schemaKeys])
          simp only [validateFields]
          by_cases hu : d.isUndefV = true
          · have hd : d = .undefV := (isUndefV_eq d).mp hu
            subst hd
            rw [if_pos hu] at hout
            have hknotin : k ∉ out.map Prod.fst := by
              intro hk
              rw [hout] at hk
              exact memStr_false_not_mem _ _ hnd'.1 (validateFields_keys_sub parse rest x k hk)
            have hlk : lookupField out k = .undefV := lookupField_not_mem _ _ hknotin
            rw [hyk, hlk, validate_undef_stable parse vk _ hv]
            have hrest := fields_rt rest hnd'.2 hwf'.2 x _ hrest_pair y (fun k' hk' => by
              rw [hy k' (by simp [schemaKeys, hk']), hout])
            rw [hrest]
            simp [Value.isUndefV, hout]
          · rw [if_neg hu] at hout
            have hlk : lookupField out k = d := by
              rw [hout]
              simp [lookupField]
            rw [hyk, hlk, childRT (getField x k) d hv]
            have hrest := fields_rt rest hnd'.2 hwf'.2 x _ hrest_pair y (fun k' hk' => by
              have hkk : ¬ (k = k') :=
                fun hh => memStr_false_not_mem _ _ hnd'.1 (hh ▸ hk')
              rw [hy k' (by simp [schemaKeys, hk']), hout]
              simp [lookupField, hkk])
            rw [hrest]
            simp [hu, hout]
end

/-- Unfolding of `DateValidator.validateType` on a string input. -/
theorem validateType_vdate_str (rules : List DateRule) (o : Bool) (m : Option String)
    (i : Bool) (s : String) :
    validateType parse (.vdate rules o m i) (.str s) =
      (match parse s with
       | some t => .ok (.date (some t))
       | none => .err (.str (m.getD "Value must be a valid Date object or an ISO date string"))) :=
  rfl

/-- A type-check failure is returned by the prototype `validate` as is:
the rule loop and the container child passes are never reached. -/
theorem typeErr_raw : ∀ (v : MV) (x : Value) (e : JsErr),
    validateType parse v x = .err e → rawValidate parse v x = .err e := by
  intro v x e h
  cases v <;> cases x <;>
    first
      | exact h
      | exact VRes.noConfusion h
      | skip
  case vnum.num =>
      rename_i n
      cases n <;> first | exact h | exact VRes.noConfusion h
  case vdate.date =>
      rename_i t
      cases t <;> first | exact h | exact VRes.noConfusion h
  case vdate.str =>
      rename_i s
      rw [validateType_vdate_str] at h
      rw [raw_vdate_str]
      cases hp : parse s with
      | some t => rw [hp] at h; exact VRes.noConfusion h
      | none => rw [hp] at h; exact h

end Lemmas

/-!
Settled claims.  `parseNone` and `parseDemo` are concrete instantiations
of the abstracted `new Date(string)` parser, used by closed statements.
-/

/-- A date parser accepting no string. -/
def parseNone : String → Option Int := fun _ => none

/-- A date parser accepting one fixed ISO string, for round-trip
examples exercising string-to-Date coercion. -/
def parseDemo : String → Option Int :=
  fun s => if s = "2024-01-01" then some 1704067200000 else none

/-- C2: the modular `DateValidator.ts` (the code the claim cites)
accepts `date().min(future).max(past)` at configuration time — both
calls merely attach rules, and the inverted range is only detected when
`validate` runs; the monolithic `schema.ts` `DateValidator` (kept in
the same repository and pinned by `tests/date-validator.test.ts`)
throws `Min date cannot be after max date` during configuration, in
either order of the two calls.  Timestamps: future = 100, past = 0,
validated input 50. -/
theorem claim2_code_behavior :
    MV.dateRulesOf (MV.dateMax (MV.dateMin Schema.date (some 100) none) (some 0) none) =
      [.dmin (some 100) none, .dmax (some 0) none] ∧
    validate parseNone (MV.dateMax (MV.dateMin Schema.date (some 100) none) (some 0) none)
        (.date (some 50)) =
      .err (.str ("Date must be on or after " ++ isoOf (some 100))) ∧
    Except.bind (SDate.min SDate.empty (some 100) none)
        (fun w => SDate.max w (some 0) none) =
      Except.error "Min date cannot be after max date" ∧
    Except.bind (SDate.max SDate.empty (some 0) none)
        (fun w => SDate.min w (some 100) none) =
      Except.error "Min date cannot be after max date" :=
  ⟨rfl, rfl, rfl, rfl⟩

/-- C4: configuration is accumulative and non-destructive.  With
v1 = string().minLength(3) and v2 = v1.maxLength(5): v1 carries exactly
the one minLength rule (no maxLength rule), v2 carries v1's rules plus
the maxLength rule, v1 rejects a 2-character string with the minLength
message only, v1 accepts a 6-character string (so it acquired no
maxLength rule), and v2 rejects that same 6-character string. -/
theorem claim4_immutability :
    MV.strRulesOf (MV.strMinLength Schema.string 3 none) = [.minLength 3 none] ∧
    MV.strRulesOf (MV.strMaxLength (MV.strMinLength Schema.string 3 none) 5 none) =
      MV.strRulesOf (MV.strMinLength Schema.string 3 none) ++ [.maxLength 5 none] ∧
    (MV.strRulesOf (MV.strMinLength Schema.string 3 none)).all
      (fun r => ! r.isMaxLengthRule) = true ∧
    validate parseNone (MV.strMinLength Schema.string 3 none) (.str "ab") =
      .err (.str "String must be at least 3 characters long") ∧
    validate parseNone (MV.strMinLength Schema.string 3 none) (.str "abcdex") =
      .ok (.str "abcdex") ∧
    validate parseNone (MV.strMaxLength (MV.strMinLength Schema.string 3 none) 5 none)
        (.str "abcdex") =
      .err (.str "String must be at most 5 characters long") :=
  ⟨rfl, rfl, rfl, rfl, rfl, rfl⟩

/-- C5: for every validator, `optional()` yields a validator that
accepts `null` and `undefined` with absent data — regardless of the
attached rules and type check, which are never consulted — and that
routes every present input through the validator's original validation
algorithm unchanged. -/
theorem claim5_optional (parse : String → Option Int) (v : MV) :
    validate parse (MV.optional v) .null = .ok .undefV ∧
    validate parse (MV.optional v) .undefV = .ok .undefV ∧
    ∀ x, x.isAbsent = false → validate parse (MV.optional v) x = validate parse v x := by
  refine ⟨?_, ?_, ?_⟩
  · cases v <;> rfl
  · cases v <;> rfl
  · intro x hx
    rw [validate_present parse (MV.optional v) x hx, validate_present parse v x hx]
    cases v <;> rfl

/-- C5 witness: instantiation at a string validator and the present
input "a". -/
theorem claim5_optional_witness :
    validate parseNone (MV.optional Schema.string) .null = .ok .undefV ∧
    validate parseNone (MV.optional Schema.string) (.str "a") =
      validate parseNone Schema.string (.str "a") :=
  ⟨(claim5_optional parseNone Schema.string).1,
   (claim5_optional parseNone Schema.string).2.2 (.str "a") rfl⟩

/-- C9: for every well-formed validator tree (schema maps have distinct
keys, as every TypeScript `Record` does) and every input whose
validation succeeds with data `d`, validating `d` again succeeds and
returns `d` itself — structural stability under re-validation,
including string-to-Date coercion and array/object rebuilding. -/
theorem claim9_roundtrip (parse : String → Option Int) (v : MV) (x d : Value)
    (hwf : WFb v = true) (h : validate parse v x = .ok d) :
    validate parse v d = .ok d :=
  wrapper_rt parse v (raw_rt parse v hwf) x d h

/-- C9 witness: an object schema with a date field fed an ISO string;
the first pass coerces the string to a Date, the second pass fixes the
result. -/
theorem claim9_roundtrip_witness :
    validate parseDemo
        (Schema.object (.cons "when" Schema.date .nil))
        (.obj [("when", .str "2024-01-01")]) =
      .ok (.obj [("when", .date (some 1704067200000))]) ∧
    validate parseDemo
        (Schema.object (.cons "when" Schema.date .nil))
        (.obj [("when", .date (some 1704067200000))]) =
      .ok (.obj [("when", .date (some 1704067200000))]) :=
  ⟨rfl,
   claim9_roundtrip parseDemo (Schema.object (.cons "when" Schema.date .nil))
     (.obj [("when", .str "2024-01-01")]) (.obj [("when", .date (some 1704067200000))])
     rfl rfl⟩

/-- C1 counterexample: in the modular implementation,
array(number().min(0)).validate([1, -2, 3, -4]) fails, but the `error`
field is the object with keys "message" and "errors" (the per-index
mapping sits one level down, under "errors"), not a mapping whose keys
are exactly "1" and "3" as the claim asserts. -/
theorem claim1_counterexample :
    validate parseNone (Schema.array (MV.numMin Schema.number 0 none))
        (.arr [.num (.finite 1), .num (.finite (-2)), .num (.finite 3),
               .num (.finite (-4))]) =
      .err (.obj [("message", .str "Array contains invalid items"),
                  ("errors", .obj [("1", .str "Number must be at least 0"),
                                   ("3", .str "Number must be at least 0")])]) ∧
    JsErr.keys (.obj [("message", .str "Array contains invalid items"),
                      ("errors", .obj [("1", .str "Number must be at least 0"),
                                       ("3", .str "Number must be at least 0")])]) =
      ["message", "errors"] ∧
    (["message", "errors"] : List String) ≠ ["1", "3"] :=
  ⟨rfl, rfl, by decide⟩

/-- C1 amended: when one or more children fail (and, for arrays, the
length rules passed), the `error` field is an object with the fixed
"message" string and an "errors" field; the "errors" value is the
structured mapping whose keys are exactly the failing array indices (as
strings, in order: `failIdx`) or exactly the failing schema fields, each
mapped to that child's error value; in the cited example the "errors"
keys are exactly "1" and "3". -/
theorem claim1_amended :
    (∀ (parse : String → Option Int) (item : MV) (rules : List ArrRule) (o : Bool)
       (m : Option String) (i : Bool) (xs : List Value),
       runRules evalArrRule rules xs.length = none →
       collectIdxErrors (xs.map fun el => validate parse item el) 0 ≠ [] →
       rawValidate parse (.varr item rules o m i) (.arr xs) =
         .err (.obj [("message", .str "Array contains invalid items"),
                     ("errors",
                      .obj (collectIdxErrors (xs.map fun el => validate parse item el) 0))]) ∧
       (collectIdxErrors (xs.map fun el => validate parse item el) 0).map Prod.fst =
         failIdx (xs.map fun el => validate parse item el) 0) ∧
    (∀ (parse : String → Option Int) (schema : SchemaMap) (o : Bool) (m : Option String)
       (i : Bool) (x : Value),
       jsIsObjectLike x = true →
       (validateFields parse schema x).2 ≠ [] →
       rawValidate parse (.vobj schema o m i) x =
         .err (.obj [("message", .str "Object validation failed"),
                     ("errors", .obj (validateFields parse schema x).2)]) ∧
       (validateFields parse schema x).2 =
         (schemaToList schema).filterMap (fun p =>
           match validate parse p.2 (getField x p.1) with
           | .ok _ => none
           | .err e => some (p.1, e))) ∧
    failIdx
        ([Value.num (.finite 1), .num (.finite (-2)), .num (.finite 3),
          .num (.finite (-4))].map
          (fun el => validate parseNone (MV.numMin Schema.number 0 none) el)) 0 =
      ["1", "3"] := by
  refine ⟨?_, ?_, rfl⟩
  · intro parse item rules o m i xs hrules hne
    constructor
    · rw [raw_varr_arr, hrules,
        if_neg (fun hc => hne ((isEmpty_eq_nil _).mp hc))]
    · exact collectIdxErrors_map_fst _ 0
  · intro parse schema o m i x hobj hne
    constructor
    · rw [raw_vobj_eq, if_pos hobj,
        if_neg (fun hc => hne ((isEmpty_eq_nil _).mp hc))]
    · exact validateFields_snd_spec parse schema x

/-- C1 amended witness: the array branch of the amended claim at the
concrete example, with both hypotheses discharged; the failing keys are
exactly "1" and "3", under the "errors" field of the wrapper object. -/
theorem claim1_amended_witness :
    rawValidate parseNone
        (MV.varr (MV.numMin Schema.number 0 none) [] false none false)
        (.arr [.num (.finite 1), .num (.finite (-2)), .num (.finite 3),
               .num (.finite (-4))]) =
      .err (.obj [("message", .str "Array contains invalid items"),
                  ("errors", .obj [("1", .str "Number must be at least 0"),
                                   ("3", .str "Number must be at least 0")])]) ∧
    (["1", "3"] : List String) =
      failIdx
        ([Value.num (.finite 1), .num (.finite (-2)), .num (.finite 3),
          .num (.finite (-4))].map
          (fun el => validate parseNone (MV.numMin Schema.number 0 none) el)) 0 := by
  have hcc : collectIdxErrors
      ([Value.num (.finite 1), .num (.finite (-2)), .num (.finite 3),
        .num (.finite (-4))].map
        (fun el => validate parseNone (MV.numMin Schema.number 0 none) el)) 0 =
      [("1", JsErr.str "Number must be at least 0"),
       ("3", JsErr.str "Number must be at least 0")] := rfl
  have h := claim1_amended.1 parseNone (MV.numMin Schema.number 0 none) [] false none false
    [.num (.finite 1), .num (.finite (-2)), .num (.finite 3), .num (.finite (-4))]
    rfl
    (fun hc => List.noConfusion (hcc.symm.trans hc))
  exact ⟨h.1, h.2.symm⟩

/-- C3 counterexample: for array(number()).validate([true]) the type
check passes (the input is an array) and the empty rule list trivially
passes, yet the result is a failure — the child pass rejects the
element — not "success carrying the type-checked value" as the claim
states for every validator. -/
theorem claim3_counterexample :
    validate parseNone (Schema.array Schema.number) (.arr [.bool true]) =
      .err (.obj [("message", .str "Array contains invalid items"),
                  ("errors", .obj [("0", .str "Value must be a valid number")])]) ∧
    (validate parseNone (Schema.array Schema.number) (.arr [.bool true])).isOk = false :=
  ⟨rfl, rfl⟩

/-- C3 amended: the two-phase base algorithm holds for every validator
— a type-check failure is returned at once (the rules never run), the
first failing rule's error is returned regardless of the rules attached
after it, and a rule list that passes leaves the kind-specific typed
value — but only leaf validators then return success with the
type-checked value; array/object validators continue with the child
pass and return the rebuilt container only when every child also
succeeded.  Nothing is thrown: every outcome is a `ValidationResult`. -/
theorem claim3_amended :
    (∀ (parse : String → Option Int) (v : MV) (x : Value) (e : JsErr),
       validateType parse v x = .err e → rawValidate parse v x = .err e) ∧
    (∀ (ρ α : Type) (f : ρ → α → Option String) (pre : List ρ) (r : ρ) (post : List ρ)
       (a : α) (e : String),
       (∀ p ∈ pre, f p a = none) → f r a = some e →
       runRules f (pre ++ r :: post) a = some e) ∧
    (∀ (ρ α : Type) (f : ρ → α → Option String) (rs : List ρ) (a : α),
       (∀ p ∈ rs, f p a = none) → runRules f rs a = none) ∧
    (∀ (parse : String → Option Int) (rules : List StrRule) (o : Bool) (m : Option String)
       (i : Bool) (s : String), (∀ r ∈ rules, evalStrRule r s = none) →
       rawValidate parse (.vstr rules o m i) (.str s) = .ok (.str s)) ∧
    (∀ (parse : String → Option Int) (rules : List NumRule) (o : Bool) (m : Option String)
       (i : Bool) (q : ℚ), (∀ r ∈ rules, evalNumRule r q = none) →
       rawValidate parse (.vnum rules o m i) (.num (.finite q)) = .ok (.num (.finite q))) ∧
    (∀ (parse : String → Option Int) (o : Bool) (m : Option String) (i : Bool) (b : Bool),
       rawValidate parse (.vbool o m i) (.bool b) = .ok (.bool b)) ∧
    (∀ (parse : String → Option Int) (rules : List DateRule) (o : Bool) (m : Option String)
       (i : Bool) (t : Int), (∀ r ∈ rules, evalDateRule r t = none) →
       rawValidate parse (.vdate rules o m i) (.date (some t)) = .ok (.date (some t))) ∧
    (∀ (parse : String → Option Int) (item : MV) (rules : List ArrRule) (o : Bool)
       (m : Option String) (i : Bool) (xs : List Value),
       runRules evalArrRule rules xs.length = none →
       collectIdxErrors (xs.map fun el => validate parse item el) 0 = [] →
       rawValidate parse (.varr item rules o m i) (.arr xs) =
         .ok (.arr ((xs.map fun el => validate parse item el).filterMap VRes.okData))) ∧
    (∀ (parse : String → Option Int) (schema : SchemaMap) (o : Bool) (m : Option String)
       (i : Bool) (x : Value), jsIsObjectLike x = true →
       (validateFields parse schema x).2 = [] →
       rawValidate parse (.vobj schema o m i) x =
         .ok (.obj (validateFields parse schema x).1)) := by
  refine ⟨typeErr_raw, ?_, ?_, ?_, ?_, ?_, ?_, ?_, ?_⟩
  · intro ρ α f pre r post a e hpre hr
    exact runRules_first_fail f pre r post a e hpre hr
  · intro ρ α f rs a h
    exact runRules_all_none f rs a h
  · intro parse rules o m i s h
    rw [raw_vstr_str, runRules_all_none _ _ _ h]
  · intro parse rules o m i q h
    rw [raw_vnum_finite, runRules_all_none _ _ _ h]
  · intro parse o m i b
    rfl
  · intro parse rules o m i t h
    rw [raw_vdate_some, runRules_all_none _ _ _ h]
  · intro parse item rules o m i xs hrules hkids
    rw [raw_varr_arr, hrules, hkids]
    rfl
  · intro parse schema o m i x hobj hkids
    rw [raw_vobj_eq, if_pos hobj, hkids]
    rfl

/-- C3 amended witness: concrete instantiations — a null input to a
string validator returns the type-check error with no rules consulted;
the first failing rule's error survives any later rules; an all-passing
rule list on a string validator returns the typed value. -/
theorem claim3_amended_witness :
    rawValidate parseNone Schema.string .null = .err (.str "Value must be a string") ∧
    runRules evalStrRule ([] ++ StrRule.minLength 3 none :: [StrRule.maxLength 5 none]) "ab" =
      some "String must be at least 3 characters long" ∧
    rawValidate parseNone Schema.string (.str "ab") = .ok (.str "ab") :=
  ⟨claim3_amended.1 parseNone Schema.string .null (.str "Value must be a string") rfl,
   claim3_amended.2.1 StrRule String evalStrRule [] (.minLength 3 none)
     [.maxLength 5 none] "ab" "String must be at least 3 characters long"
     (fun p hp => absurd hp (List.not_mem_nil p)) rfl,
   claim3_amended.2.2.2.1 parseNone [] false none false "ab"
     (fun r hr => absurd hr (List.not_mem_nil r))⟩

/-- C6: on an input passing the object type check, exactly the declared
schema keys are consulted: the output record is the filter of the
schema that keeps each key whose validator succeeded with a present
value (so absent-marker successes are omitted and input keys outside
the schema never appear), and every output key is a schema key.  The
two cited examples: a missing optional `age` is absent from the output,
and an undeclared `extra` key is stripped. -/
theorem claim6_object_output :
    (∀ (parse : String → Option Int) (schema : SchemaMap) (o : Bool) (m : Option String)
       (i : Bool) (x : Value) (fields : List (String × Value)),
       validate parse (.vobj schema o m i) x = .ok (.obj fields) →
       fields = (schemaToList schema).filterMap (fun p =>
         match validate parse p.2 (getField x p.1) with
         | .ok d => if d.isUndefV then none else some (p.1, d)
         | .err _ => none) ∧
       ∀ k, k ∈ fields.map Prod.fst → k ∈ schemaKeys schema) ∧
    validate parseNone
        (Schema.object (.cons "name" Schema.string
          (.cons "age" (MV.optional Schema.number) .nil)))
        (.obj [("name", .str "Ann")]) =
      .ok (.obj [("name", .str "Ann")]) ∧
    validate parseNone
        (Schema.object (.cons "name" Schema.string
          (.cons "age" (MV.optional Schema.number) .nil)))
        (.obj [("name", .str "Ann"), ("extra", .num (.finite 1))]) =
      .ok (.obj [("name", .str "Ann")]) := by
  refine ⟨?_, rfl, rfl⟩
  intro parse schema o m i x fields h
  rw [validate_eq_raw] at h
  by_cases hc : (MV.icpOf (.vobj schema o m i) && x.isAbsent) = true
  · rw [if_pos hc] at h
    injection h with h1
    exact Value.noConfusion h1
  · rw [if_neg hc, raw_vobj_eq] at h
    by_cases hobj : jsIsObjectLike x = true
    · rw [if_pos hobj] at h
      by_cases he : (validateFields parse schema x).2.isEmpty = true
      · rw [if_pos he] at h
        injection h with h1
        injection h1 with h2
        subst h2
        exact ⟨(validateFields_fst_spec parse schema x).symm ▸ validateFields_fst_spec parse schema x,
               validateFields_keys_sub parse schema x⟩
      · rw [if_neg he] at h
        exact VRes.noConfusion h
    · rw [if_neg hobj] at h
      exact VRes.noConfusion h

/-- C6 witness: the general field characterization instantiated at the
`extra`-key example: the output record equals the schema filter (here
just the `name` entry) and its keys all come from the schema. -/
theorem claim6_object_output_witness :
    ([("name", Value.str "Ann")] : List (String × Value)) =
      (schemaToList (.cons "name" Schema.string
          (.cons "age" (MV.optional Schema.number) .nil))).filterMap (fun p =>
        match validate parseNone p.2
            (getField (.obj [("name", .str "Ann"), ("extra", .num (.finite 1))]) p.1) with
        | .ok d => if d.isUndefV then none else some (p.1, d)
        | .err _ => none) ∧
    ∀ k, k ∈ ([("name", Value.str "Ann")] : List (String × Value)).map Prod.fst →
      k ∈ schemaKeys (.cons "name" Schema.string
        (.cons "age" (MV.optional Schema.number) .nil)) :=
  claim6_object_output.1 parseNone
    (.cons "name" Schema.string (.cons "age" (MV.optional Schema.number) .nil))
    false none false
    (.obj [("name", .str "Ann"), ("extra", .num (.finite 1))])
    [("name", .str "Ann")] rfl

/-- C7: children are evaluated exhaustively: whenever the base phase of
an array (type + length rules) or object (type) validator passes and
some child fails — any index `j`, any schema entry `(k, vk)` — the
resulting error mapping contains an entry for that child, keyed by its
index or field name and carrying that child's error, irrespective of
any other failing children. -/
theorem claim7_exhaustive :
    (∀ (parse : String → Option Int) (item : MV) (rules : List ArrRule) (o : Bool)
       (m : Option String) (i : Bool) (xs : List Value) (j : Nat) (e : JsErr),
       runRules evalArrRule rules xs.length = none →
       (xs.map fun el => validate parse item el)[j]? = some (.err e) →
       rawValidate parse (.varr item rules o m i) (.arr xs) =
         .err (.obj [("message", .str "Array contains invalid items"),
                     ("errors",
                      .obj (collectIdxErrors (xs.map fun el => validate parse item el) 0))]) ∧
       (toString j, e) ∈ collectIdxErrors (xs.map fun el => validate parse item el) 0) ∧
    (∀ (parse : String → Option Int) (schema : SchemaMap) (o : Bool) (m : Option String)
       (i : Bool) (x : Value) (k : String) (vk : MV) (e : JsErr),
       jsIsObjectLike x = true → (k, vk) ∈ schemaToList schema →
       validate parse vk (getField x k) = .err e →
       rawValidate parse (.vobj schema o m i) x =
         .err (.obj [("message", .str "Object validation failed"),
                     ("errors", .obj (validateFields parse schema x).2)]) ∧
       (k, e) ∈ (validateFields parse schema x).2) := by
  constructor
  · intro parse item rules o m i xs j e hrules hj
    have hmem0 := collectIdxErrors_mem (xs.map fun el => validate parse item el) 0 j e hj
    rw [Nat.zero_add] at hmem0
    have hne := List.ne_nil_of_mem hmem0
    exact ⟨by rw [raw_varr_arr, hrules, if_neg (fun hc => hne ((isEmpty_eq_nil _).mp hc))],
           hmem0⟩
  · intro parse schema o m i x k vk e hobj hmem hve
    have hmem2 : (k, e) ∈ (validateFields parse schema x).2 := by
      rw [validateFields_snd_spec]
      exact List.mem_filterMap.mpr ⟨(k, vk), hmem, by rw [hve]⟩
    have hne := List.ne_nil_of_mem hmem2
    exact ⟨by rw [raw_vobj_eq, if_pos hobj,
             if_neg (fun hc => hne ((isEmpty_eq_nil _).mp hc))],
           hmem2⟩

/-- C7 witness: in the [1, -2, 3, -4] example, the later failing index 3
still gets its entry, even though index 1 already failed. -/
theorem claim7_exhaustive_witness :
    rawValidate parseNone
        (MV.varr (MV.numMin Schema.number 0 none) [] false none false)
        (.arr [.num (.finite 1), .num (.finite (-2)), .num (.finite 3),
               .num (.finite (-4))]) =
      .err (.obj [("message", .str "Array contains invalid items"),
                  ("errors", .obj [("1", .str "Number must be at least 0"),
                                   ("3", .str "Number must be at least 0")])]) ∧
    (("3", JsErr.str "Number must be at least 0") ∈
      ([("1", JsErr.str "Number must be at least 0"),
        ("3", JsErr.str "Number must be at least 0")] : List (String × JsErr))) :=
  claim7_exhaustive.1 parseNone (MV.numMin Schema.number 0 none) [] false none false
    [.num (.finite 1), .num (.finite (-2)), .num (.finite 3), .num (.finite (-4))]
    3 (.str "Number must be at least 0") rfl rfl

/-- C8 counterexample: the claim quantifies over every configured
min(a).max(b) pair; with the inverted pair a = 1, b = 0 the code
rejects validate(1) through the max rule, while the claim asserts
validate(a) succeeds. -/
theorem claim8_counterexample :
    validate parseNone (MV.numMax (MV.numMin Schema.number 1 none) 0 none)
        (.num (.finite 1)) =
      .err (.str ("Number must be at most " ++ toString (0 : ℚ))) ∧
    (validate parseNone (MV.numMax (MV.numMin Schema.number 1 none) 0 none)
        (.num (.finite 1))).isOk = false :=
  ⟨rfl, rfl⟩

/-- C8 amended: the number type check rejects every value that is not a
finite number (NaN, the two infinities, every other kind) with the
default or overridden type message, for any rule list; and for
min(a).max(b) with a ≤ b the bounds are inclusive — validate(a) and
validate(b) succeed — while any finite q < a fails with the min rule's
(default or overridden) message and any finite q > b fails with the max
rule's message. -/
theorem claim8_amended :
    (∀ (parse : String → Option Int) (rules : List NumRule) (o : Bool)
       (m : Option String) (i : Bool) (x : Value), isFiniteNum x = false →
       rawValidate parse (.vnum rules o m i) x =
         .err (.str (m.getD "Value must be a valid number"))) ∧
    (∀ (parse : String → Option Int) (a b : ℚ) (m1 m2 : Option String), a ≤ b →
       validate parse (MV.numMax (MV.numMin Schema.number a m1) b m2)
           (.num (.finite a)) = .ok (.num (.finite a)) ∧
       validate parse (MV.numMax (MV.numMin Schema.number a m1) b m2)
           (.num (.finite b)) = .ok (.num (.finite b)) ∧
       (∀ q : ℚ, q < a →
         validate parse (MV.numMax (MV.numMin Schema.number a m1) b m2)
             (.num (.finite q)) =
           .err (.str (m1.getD ("Number must be at least " ++ toString a)))) ∧
       (∀ q : ℚ, b < q →
         validate parse (MV.numMax (MV.numMin Schema.number a m1) b m2)
             (.num (.finite q)) =
           .err (.str (m2.getD ("Number must be at most " ++ toString b))))) := by
  constructor
  · intro parse rules o m i x hx
    cases x <;> try rfl
    case num n =>
      cases n <;> first | rfl | simp [isFiniteNum] at hx
  · intro parse a b m1 m2 hab
    have hv : MV.numMax (MV.numMin Schema.number a m1) b m2 =
        .vnum [.nmin a m1, .nmax b m2] false none false := rfl
    rw [hv]
    refine ⟨?_, ?_, ?_, ?_⟩
    · rw [validate_present parse _ (.num (.finite a)) rfl, raw_vnum_finite]
      simp only [runRules, evalNumRule]
      rw [if_neg (lt_irrefl a), if_neg (not_lt.mpr hab)]
    · rw [validate_present parse _ (.num (.finite b)) rfl, raw_vnum_finite]
      simp only [runRules, evalNumRule]
      rw [if_neg (not_lt.mpr hab), if_neg (lt_irrefl b)]
    · intro q hq
      rw [validate_present parse _ (.num (.finite q)) rfl, raw_vnum_finite]
      simp only [runRules, evalNumRule]
      rw [if_pos hq]
    · intro q hq
      rw [validate_present parse _ (.num (.finite q)) rfl, raw_vnum_finite]
      simp only [runRules, evalNumRule]
      rw [if_neg (not_lt.mpr (le_of_lt (lt_of_le_of_lt hab hq))), if_pos hq]

/-- C8 amended witness: min(0).max(10): NaN is rejected by the type
check, 0 and 10 validate (inclusive bounds), -1 fails on the min rule
and 11 fails on the max rule. -/
theorem claim8_amended_witness :
    rawValidate parseNone (.vnum [] false none false) (.num .nan) =
      .err (.str "Value must be a valid number") ∧
    validate parseNone (MV.numMax (MV.numMin Schema.number 0 none) 10 none)
        (.num (.finite 0)) = .ok (.num (.finite 0)) ∧
    validate parseNone (MV.numMax (MV.numMin Schema.number 0 none) 10 none)
        (.num (.finite 10)) = .ok (.num (.finite 10)) ∧
    validate parseNone (MV.numMax (MV.numMin Schema.number 0 none) 10 none)
        (.num (.finite (-1))) =
      .err (.str ("Number must be at least " ++ toString (0 : ℚ))) ∧
    validate parseNone (MV.numMax (MV.numMin Schema.number 0 none) 10 none)
        (.num (.finite 11)) =
      .err (.str ("Number must be at most " ++ toString (10 : ℚ))) := by
  have h := claim8_amended.2 parseNone 0 10 none none (by decide)
  exact ⟨claim8_amended.1 parseNone [] false none false (.num .nan) rfl,
         h.1, h.2.1, h.2.2.1 (-1) (by decide), h.2.2.2 11 (by decide)⟩

/-- C10: chaining `withMessage(m)` after `optional()` silently drops the
absent-input interception: the configuration call clones through the
constructor, which copies the `isOptional` flag (still true) and the
rule list but not the patched `validate` method, so `null` and
`undefined` now reach the type check and fail with the custom type-check
message `m`. -/
theorem claim10_optional_lost (parse : String → Option Int) (v : MV) (msg : String) :
    validate parse (MV.withMessage (MV.optional v) msg) .null = .err (.str msg) ∧
    validate parse (MV.withMessage (MV.optional v) msg) .undefV = .err (.str msg) ∧
    MV.icpOf (MV.withMessage (MV.optional v) msg) = false ∧
    MV.optOf (MV.withMessage (MV.optional v) msg) = true := by
  refine ⟨?_, ?_, ?_, ?_⟩ <;> cases v <;> rfl

end Task8
